import Mathlib

/-!
Verification of the Pronto restaurant-deals application core logic.

This file gives a shallow embedding, in Lean 4, of the pure computational
core of the repository: the price extractor and filter/sort pipeline of
src/ui/filters.py, the review parser of src/utils/review_utils.py, the
coordinate-resolution chain of src/utils/restaurant_utils.py and
src/utils/location_utils.py, the deal-display splitting of
src/ui/restaurant_display/components/deal_display.py, the Haversine
distance of src/utils/distance_utils.py, and the distance-cap filter of
src/app.py.  Python strings are modelled as lists of characters, Python
floats as rationals (reals for the trigonometric Haversine code), and
Python exceptions as Except / Option values.  Regular-expression searches
are embedded as explicit scanners that follow the leftmost-match and
backtracking semantics of the Python re module for the concrete patterns
appearing in the source.
-/

namespace Pronto

/-! ### Character and string primitives -/

/-- ASCII whitespace as matched by the Python regex class backslash-s and
by str.split and str.strip with no arguments: space, tab, newline,
carriage return, vertical tab, form feed. -/
def isPySpace (c : Char) : Bool :=
  c = ' ' || c = '\t' || c = '\n' || c = '\r' || c.toNat = 11 || c.toNat = 12

/-- Decimal digit, Python regex class backslash-d on ASCII data. -/
def isDigitC (c : Char) : Bool := c.isDigit

/-- Python substring membership test, the form pat in hay. -/
def containsSub (hay pat : List Char) : Bool :=
  match hay with
  | [] => pat.isPrefixOf ([] : List Char)
  | _ :: t => pat.isPrefixOf hay || containsSub t pat

/-- Python str.lower on ASCII data. -/
def toLowerL (l : List Char) : List Char := l.map Char.toLower

/-- Python str.strip with no argument: remove leading and trailing
whitespace. -/
def pyStrip (l : List Char) : List Char :=
  ((l.dropWhile isPySpace).reverse.dropWhile isPySpace).reverse

/-- Value of a list of decimal digit characters, as int() computes it. -/
def natOfDigits (l : List Char) : Nat :=
  l.foldl (fun n c => n * 10 + (c.toNat - 48)) 0

/-- Rational value of a decimal literal with integer digits i and
fractional digits f, as float() computes it on "i.f". -/
def decQ (i f : List Char) : ℚ :=
  (natOfDigits i : ℚ) + (natOfDigits f : ℚ) / (10 : ℚ) ^ f.length

/-- Rational value of an all-integer decimal literal. -/
def natQ (d : List Char) : ℚ := (natOfDigits d : ℚ)

/-- Python str.split(sep) for a non-empty separator: split at each
non-overlapping occurrence, scanning left to right; fuelled worker. -/
def splitOnSubGo (sep : List Char) : Nat → List Char → List Char → List (List Char)
  | 0, acc, l => [acc.reverse ++ l]
  | fuel + 1, acc, [] => [acc.reverse]
  | fuel + 1, acc, c :: rest =>
    if sep.isPrefixOf (c :: rest) then
      acc.reverse :: splitOnSubGo sep fuel [] ((c :: rest).drop sep.length)
    else
      splitOnSubGo sep fuel (c :: acc) rest

/-- Python str.split(sep) for the non-empty separators used in the code. -/
def splitOnSub (sep l : List Char) : List (List Char) :=
  splitOnSubGo sep l.length [] l

/-- Python str.split() with no argument: split on whitespace runs,
dropping empty fields; fuelled worker. -/
def pySplitWsGo : Nat → List Char → List (List Char)
  | 0, _ => []
  | fuel + 1, l =>
    let l2 := l.dropWhile isPySpace
    match l2 with
    | [] => []
    | c :: rest =>
      let w := (c :: rest).takeWhile (fun d => !isPySpace d)
      w :: pySplitWsGo fuel ((c :: rest).drop w.length)

/-- Python str.split() with no argument. -/
def pySplitWs (l : List Char) : List (List Char) :=
  pySplitWsGo (l.length + 1) l

/-- Exponent tail of a Python float literal, after the letter e: an
optional sign and at least one digit, consuming the whole remainder. -/
def parseExpTail (t : List Char) : Option Int :=
  let es : Int := match t with | '-' :: _ => -1 | _ => 1
  let t2 := match t with | '+' :: u => u | '-' :: u => u | u => u
  let ed := t2.takeWhile isDigitC
  if ed.isEmpty then none
  else if (t2.drop ed.length).isEmpty then some (es * (natOfDigits ed : Int)) else none

/-- Python float(str) on the decimal-literal forms used by the data:
optional surrounding whitespace, optional sign, digits with an optional
dot and an optional exponent; returns none where float() raises
ValueError.  The special spellings inf and nan are floating-point
specials outside this rational model and are not parsed. -/
def pyFloatParse (l0 : List Char) : Option ℚ :=
  let l1 := pyStrip l0
  let sgn : ℚ := match l1 with | '-' :: _ => -1 | _ => 1
  let l2 := match l1 with | '+' :: u => u | '-' :: u => u | u => u
  let i := l2.takeWhile isDigitC
  let r1 := l2.drop i.length
  let f := match r1 with | '.' :: t => t.takeWhile isDigitC | _ => []
  let r2 := match r1 with | '.' :: t => t.drop (t.takeWhile isDigitC).length | t => t
  if i.isEmpty && f.isEmpty then none
  else
    match r2 with
    | [] => some (sgn * decQ i f)
    | 'e' :: t =>
      match parseExpTail t with
      | some e => some (sgn * decQ i f * (10 : ℚ) ^ e)
      | none => none
    | 'E' :: t =>
      match parseExpTail t with
      | some e => some (sgn * decQ i f * (10 : ℚ) ^ e)
      | none => none
    | _ => none

/-! ### The restaurant record

Restaurant dictionaries are modelled with one optional field per key the
filter pipeline reads; none models an absent key. -/

structure Restaurant where
  name : Option String := none
  rating : Option ℚ := none
  review_count : Option Int := none
  summarized_deals : Option String := none
  detailed_deals : Option String := none
  deals : Option String := none
  distance : Option String := none
deriving DecidableEq

/-- Python truthiness of an optional string field: present and non-empty. -/
def truthy : Option String → Bool
  | some s => !s.isEmpty
  | none => false

/-! ### src/ui/filters.py: get_distance_value -/

/-- get_distance_value (src/ui/filters.py lines 7 to 24): split the
stored distance string on whitespace and parse the first token with
float(); any failure, a missing key included, is caught and yields 0.0. -/
def get_distance_value (r : Restaurant) : ℚ :=
  match r.distance with
  | none => 0
  | some s =>
    match pySplitWs s.data with
    | [] => 0
    | p :: _ =>
      match pyFloatParse p with
      | some q => q
      | none => 0

/-! ### src/ui/filters.py: price extraction

The pattern is a dollar sign, a captured number (digits with an optional
fractional part), and a negative lookahead refusing optional whitespace
followed by the word each.  re.findall scans left to right; at each match
attempt the quantifiers backtrack from their greediest option until the
lookahead is satisfied.  The scanners below reproduce that order exactly:
the fractional digits shrink first, then the fraction is dropped, then
the integer digits shrink. -/

/-- The negative lookahead of the price pattern succeeds at a position
when the text there is not optional whitespace followed by each. -/
def lookaheadOK (l : List Char) : Bool :=
  !("each".data.isPrefixOf (l.dropWhile isPySpace))

/-- Fractional-part options of the price capture, tried with m digits of
the fractional run, m descending, exactly as the backtracking regex
engine does; i holds the integer digits, r2 the text after the dot. -/
def tryFracOptions (i r2 : List Char) : Nat → Option (ℚ × List Char)
  | 0 => none
  | m + 1 =>
    if lookaheadOK (r2.drop (m + 1)) then
      some (decQ i (r2.take (m + 1)), r2.drop (m + 1))
    else tryFracOptions i r2 m

/-- Integer-digit options of the price capture, tried with k digits of
the run d, k descending; r is the text after the dollar sign.  For each
k the engine first tries the fractional group, then no fraction, and
only then a shorter integer run. -/
def tryIntOptions (r d : List Char) : Nat → Option (ℚ × List Char)
  | 0 => none
  | k + 1 =>
    let rk := r.drop (k + 1)
    let withFrac :=
      match rk with
      | '.' :: r2 => tryFracOptions (d.take (k + 1)) r2 (r2.takeWhile isDigitC).length
      | _ => none
    match withFrac with
    | some res => some res
    | none =>
      if lookaheadOK rk then some (natQ (d.take (k + 1)), rk)
      else tryIntOptions r d k

/-- One match attempt of the price pattern at the current position;
returns the captured value and the remaining text after the match. -/
def matchPriceAt : List Char → Option (ℚ × List Char)
  | '$' :: r =>
    let d := r.takeWhile isDigitC
    if d.isEmpty then none else tryIntOptions r d d.length
  | _ => none

/-- re.findall scan for the price pattern: try a match at each position
left to right, resuming after the consumed text of each match; fuelled
worker. -/
def findPricesGo : Nat → List Char → List ℚ
  | 0, _ => []
  | _ + 1, [] => []
  | fuel + 1, c :: rest =>
    match matchPriceAt (c :: rest) with
    | some (q, cont) => q :: findPricesGo fuel cont
    | none => findPricesGo fuel rest

/-- All captures of the price pattern in a text, in order. -/
def findallPrices (l : List Char) : List ℚ :=
  findPricesGo l.length l

/-- Price matches of one deal field, kept when the field is present and
truthy, restricted to the range 0.01 to 100 as in the source. -/
def pricesFromField (o : Option String) : List ℚ :=
  match o with
  | some s =>
    if s.isEmpty then []
    else (findallPrices s.data).filter (fun p => decide ((1 : ℚ) / 100 ≤ p) && decide (p ≤ 100))
  | none => []

/-- extract_all_prices_from_deals (src/ui/filters.py lines 26 to 61):
scan summarized_deals, detailed_deals and deals in that order, all
contributing. -/
def extract_all_prices_from_deals (r : Restaurant) : List ℚ :=
  pricesFromField r.summarized_deals ++ pricesFromField r.detailed_deals
    ++ pricesFromField r.deals

/-- extract_price_from_deals: the minimum extracted price, or none where
the source returns float infinity for an empty price list. -/
def extract_price_from_deals (r : Restaurant) : Option ℚ :=
  (extract_all_prices_from_deals r).min?

/-! ### src/utils/review_utils.py: parse_reviews

The parser recognises two formats.  Its regex searches are embedded as
leftmost scans; at each of the patterns the greedy quantifiers range over
disjoint character classes, so each match attempt is deterministic.
Exceptions inside the try block, namely int() on an empty string after
comma stripping and float division by zero, are modelled with Except;
the enclosing catch-all turns any such error into the pair (0.0, 0). -/

/-- A character of the count capture class, digits or comma. -/
def isCountChar (c : Char) : Bool := c.isDigit || c = ','

/-- First alternative of the number pattern: digits, a dot, digits, then
a slash and the digits of the maximum; d1 holds the integer digits
already read, r1 the text after them. -/
def altFrac (d1 r1 : List Char) : Option (ℚ × ℚ) :=
  match r1 with
  | '.' :: r2 =>
    let f := r2.takeWhile isDigitC
    if f.isEmpty then none
    else
      match r2.drop f.length with
      | '/' :: r3 =>
        let d3 := r3.takeWhile isDigitC
        if d3.isEmpty then none else some (decQ d1 f, natQ d3)
      | _ => none
  | _ => none

/-- Second alternative of the number pattern: plain digits, then a slash
and the digits of the maximum. -/
def altInt (d1 r1 : List Char) : Option (ℚ × ℚ) :=
  match r1 with
  | '/' :: r3 =>
    let d3 := r3.takeWhile isDigitC
    if d3.isEmpty then none else some (natQ d1, natQ d3)
  | _ => none

/-- One attempt of the rating number pattern at the current position:
the captured value and maximum of the fraction value/max. -/
def matchNumberSlash (l : List Char) : Option (ℚ × ℚ) :=
  let d1 := l.takeWhile isDigitC
  if d1.isEmpty then none
  else
    let r1 := l.drop d1.length
    match altFrac d1 r1 with
    | some vm => some vm
    | none => altInt d1 r1

/-- One attempt, at the current position, of the new-format rating
pattern: the literal Average Rating, an optional colon, whitespace, then
the number pattern. -/
def matchPrefixedNumber (l : List Char) : Option (ℚ × ℚ) :=
  if "Average Rating".data.isPrefixOf l then
    let r := l.drop 14
    let r1 := match r with | ':' :: t => t | t => t
    matchNumberSlash (r1.dropWhile isPySpace)
  else none

/-- One attempt, at the current position, of the new-format count
pattern: the literal Total Reviews with either capitalisation of the R,
an optional colon, whitespace, then at least one digit or comma,
captured greedily. -/
def matchCountNew (l : List Char) : Option (List Char) :=
  if "Total Reviews".data.isPrefixOf l || "Total reviews".data.isPrefixOf l then
    let r := l.drop 13
    let r1 := match r with | ':' :: t => t | t => t
    let ds := (r1.dropWhile isPySpace).takeWhile isCountChar
    if ds.isEmpty then none else some ds
  else none

/-- One attempt, at the current position, of the legacy count pattern:
an opening parenthesis, digits, whitespace, the word reviews and a
closing parenthesis. -/
def matchCountOld (l : List Char) : Option (List Char) :=
  match l with
  | '(' :: r =>
    let ds := r.takeWhile isDigitC
    if ds.isEmpty then none
    else
      let r1 := r.drop ds.length
      let ws := r1.takeWhile isPySpace
      if ws.isEmpty then none
      else if "reviews)".data.isPrefixOf (r1.drop ws.length) then some ds else none
  | _ => none

/-- Leftmost re.search scan for the bare number pattern. -/
def searchNumberSlash : List Char → Option (ℚ × ℚ)
  | [] => none
  | c :: t =>
    match matchNumberSlash (c :: t) with
    | some vm => some vm
    | none => searchNumberSlash t

/-- Leftmost re.search scan for the prefixed number pattern. -/
def searchPrefixedNumber : List Char → Option (ℚ × ℚ)
  | [] => none
  | c :: t =>
    match matchPrefixedNumber (c :: t) with
    | some vm => some vm
    | none => searchPrefixedNumber t

/-- Leftmost re.search scan for the new-format count pattern. -/
def searchCountNew : List Char → Option (List Char)
  | [] => none
  | c :: t =>
    match matchCountNew (c :: t) with
    | some ds => some ds
    | none => searchCountNew t

/-- Leftmost re.search scan for the legacy count pattern. -/
def searchCountOld : List Char → Option (List Char)
  | [] => none
  | c :: t =>
    match matchCountOld (c :: t) with
    | some ds => some ds
    | none => searchCountOld t

/-- New-format count extraction: strip commas from the capture and apply
int(), which raises on an empty remainder; a missing match yields 0. -/
def newCountE (l : List Char) : Except Unit Nat :=
  match searchCountNew l with
  | none => Except.ok 0
  | some ds =>
    let ds2 := ds.filter (fun c => c ≠ ',')
    if ds2.isEmpty then Except.error () else Except.ok (natOfDigits ds2)

/-- Rating from an optional extracted fraction: no match yields 0.0;
otherwise rescale by value/max 5 unless max is 5, where the Python float
division raises ZeroDivisionError when max is 0. -/
def ratingFromFracE : Option (ℚ × ℚ) → Except Unit ℚ
  | none => Except.ok 0
  | some (v, m) =>
    if m ≠ 5 then (if m = 0 then Except.error () else Except.ok (v / m * 5))
    else Except.ok v

/-- The new-format detection check of parse_reviews: both literal
markers, colons included, occur in the string. -/
def isNewFormat (l : List Char) : Bool :=
  containsSub l "Total Reviews:".data && containsSub l "Average Rating:".data

/-- Legacy count: digits of the parenthesised reviews group, or 0. -/
def oldCount (l : List Char) : Nat :=
  match searchCountOld l with
  | none => 0
  | some ds => natOfDigits ds

/-- The rating fraction the parser extracts from a review string, on the
branch the string selects: the pair (value, max) of the regex capture,
or none when nothing matches or the string is empty. -/
def ratingFracOf (s : String) : Option (ℚ × ℚ) :=
  if s.data.isEmpty then none
  else if isNewFormat s.data then searchPrefixedNumber s.data
  else searchNumberSlash s.data

/-- The try-block body of parse_reviews (src/utils/review_utils.py lines
8 to 71), with each Python raise point an Except error.  The new-format
branch computes the count first, then the rating, as the source does. -/
def parse_reviewsE (s : String) : Except Unit (ℚ × Nat) :=
  let l := s.data
  if l.isEmpty then Except.ok (0, 0)
  else if isNewFormat l then
    match newCountE l with
    | Except.error e => Except.error e
    | Except.ok c =>
      match ratingFromFracE (searchPrefixedNumber l) with
      | Except.error e => Except.error e
      | Except.ok r => Except.ok (r, c)
  else
    match ratingFromFracE (searchNumberSlash l) with
    | Except.error e => Except.error e
    | Except.ok r => Except.ok (r, oldCount l)

/-- parse_reviews: the try-block body under the catch-all handler, which
converts any raised error into the default pair (0.0, 0). -/
def parse_reviews (s : String) : ℚ × Nat :=
  match parse_reviewsE s with
  | Except.ok v => v
  | Except.error _ => (0, 0)

/-! ### src/utils/location_utils.py and src/utils/restaurant_utils.py:
coordinate resolution

geocode_address and extract_coordinates_from_maps_url wrap external
network services; they enter the embedding as opaque function parameters
returning an optional coordinate pair, matching their contract of a
(lat, lng) pair or (None, None).  The named-area table lookup is pure
source code and is embedded in full. -/

/-- The raw fields process_restaurant_data consults for coordinates;
none models an absent key. -/
structure RawRecord where
  address : Option String := none
  maps_url : Option String := none
  area : Option String := none
deriving DecidableEq

/-- get_winnipeg_coordinates_by_area (src/utils/location_utils.py lines
128 to 155): lowercase the location and test the area substrings in
source order; every branch returns a pair, downtown Winnipeg when
nothing matches. -/
def get_winnipeg_coordinates_by_area (loc : String) : ℚ × ℚ :=
  let l := toLowerL loc.data
  if containsSub l "pembina".data then (49.8155, -97.1531)
  else if containsSub l "kenaston".data then (49.8372, -97.2055)
  else if containsSub l "sterling".data then (49.8372, -97.2055)
  else if containsSub l "ness".data then (49.8788, -97.2210)
  else if containsSub l "keenlyside".data then (49.9121, -97.0623)
  else if containsSub l "winnipeg".data then (49.8951, -97.1384)
  else (49.8951, -97.1384)

/-- Strategy 1 of process_restaurant_data: geocode the address when the
key is present and truthy. -/
def geocodeAttempt (g : String → Option (ℚ × ℚ)) (r : RawRecord) : Option (ℚ × ℚ) :=
  match r.address with
  | some a => if a.isEmpty then none else g a
  | none => none

/-- Strategy 2: extract coordinates from the maps url when the key is
present and truthy. -/
def mapsUrlAttempt (e : String → Option (ℚ × ℚ)) (r : RawRecord) : Option (ℚ × ℚ) :=
  match r.maps_url with
  | some u => if u.isEmpty then none else e u
  | none => none

/-- Strategy 3: the named-area table, consulted whenever the location
key is present; the table lookup itself always returns a pair. -/
def areaAttempt (r : RawRecord) : Option (ℚ × ℚ) :=
  r.area.map get_winnipeg_coordinates_by_area

/-- The coordinate-resolution chain of process_restaurant_data
(src/utils/restaurant_utils.py lines 56 to 91), with the has_coordinates
flag of the source realised by the nested fallthrough: geocoding, then
the maps url, then the area table, then downtown Winnipeg.  The result
type makes latitude and longitude always set. -/
def process_restaurant_coords (g e : String → Option (ℚ × ℚ)) (r : RawRecord) : ℚ × ℚ :=
  match geocodeAttempt g r with
  | some p => p
  | none =>
    match mapsUrlAttempt e r with
    | some p => p
    | none =>
      match areaAttempt r with
      | some p => p
      | none => (49.8951, -97.1384)

/-! ### src/ui/restaurant_display/components/deal_display.py:
detailed-deal splitting and pairing -/

/-- The deal-list construction of _display_detailed_deals: split on the
two-character arrow, strip each piece, and keep only the non-empty
results. -/
def splitArrow (s : String) : List String :=
  ((splitOnSub "->".data s.data).map (fun seg => String.mk (pyStrip seg))).filter
    (fun t => !t.isEmpty)

/-- _display_detailed_deals (deal_display.py lines 35 to 63) followed by
the unfiltered branch of _filter_detailed_deals: truncate both lists to
the shorter length when the lengths differ, then pair positionally with
zip. -/
def detailedDealPairs (sd dd : String) : List (String × String) :=
  let sl := splitArrow sd
  let dl := splitArrow dd
  if sl.length ≠ dl.length then
    let n := min sl.length dl.length
    (sl.take n).zip (dl.take n)
  else sl.zip dl

/-! ### src/app.py lines 166 to 171: the distance-cap filter

The comprehension parses float(r[distance].split()[0]) with no guard: a
missing key raises KeyError, an empty split raises IndexError, and an
unparseable token raises ValueError, all uncaught in main. -/

/-- The distance key of one record as the app.py comprehension computes
it, with each Python raise point an Except error. -/
def appDistanceOf (r : Restaurant) : Except Unit ℚ :=
  match r.distance with
  | none => Except.error ()
  | some s =>
    match pySplitWs s.data with
    | [] => Except.error ()
    | p :: _ =>
      match pyFloatParse p with
      | some q => Except.ok q
      | none => Except.error ()

/-- The app.py distance-cap comprehension over a record list: the
filtered list, or the error of the first record whose distance fails to
parse. -/
def appDistanceFilter (rs : List Restaurant) (cap : ℚ) : Except Unit (List Restaurant) :=
  match rs with
  | [] => Except.ok []
  | r :: t =>
    match appDistanceOf r with
    | Except.error e => Except.error e
    | Except.ok d =>
      match appDistanceFilter t cap with
      | Except.error e => Except.error e
      | Except.ok rest => Except.ok (if d ≤ cap then r :: rest else rest)

/-! ### src/ui/filters.py: apply_filters_and_sorting -/

/-- The parameters of apply_filters_and_sorting; sort_by and sort_order
stay strings as in the source, where an unrecognised sort key sorts
nothing. -/
structure FilterParams where
  min_rating : ℚ
  min_reviews : Int
  sort_by : String
  sort_order : String
  name_filter : String := ""
  deals_filter : String := ""
  max_price : ℚ := 100
deriving DecidableEq

/-- r.get with default 0 for the rating. -/
def ratingOf (r : Restaurant) : ℚ := r.rating.getD 0

/-- int(r.get with default 0) for the review count. -/
def reviewCountOf (r : Restaurant) : Int := r.review_count.getD 0

/-- Case-insensitive Python substring test pat.lower() in hay.lower(). -/
def lowerContains (hay pat : String) : Bool :=
  containsSub (toLowerL hay.data) (toLowerL pat.data)

/-- The review filter: rating at least the threshold halved from the
0 to 10 scale, and review count at least the minimum. -/
def reviewPred (minR : ℚ) (minC : Int) (r : Restaurant) : Bool :=
  decide (minR / 2 ≤ ratingOf r) && decide (minC ≤ reviewCountOf r)

/-- The name filter predicate: key present, truthy, and containing the
lowered filter text. -/
def namePred (nf : String) (r : Restaurant) : Bool :=
  match r.name with
  | some n => !n.isEmpty && lowerContains n nf
  | none => false

/-- The deals filter predicate: a first successful case-insensitive
match across summarized_deals, detailed_deals, then legacy deals. -/
def dealsPred (df : String) (r : Restaurant) : Bool :=
  (truthy r.summarized_deals && lowerContains (r.summarized_deals.getD "") df)
    || (truthy r.detailed_deals && lowerContains (r.detailed_deals.getD "") df)
    || (truthy r.deals && lowerContains (r.deals.getD "") df)

/-- The price filter predicate: keep records with no extractable price,
or whose minimum price is at most the cap. -/
def pricePred (maxP : ℚ) (r : Restaurant) : Bool :=
  match extract_price_from_deals r with
  | none => true
  | some p => decide (p ≤ maxP)

/-- The four filter passes of apply_filters_and_sorting, in source
order; the name and deals passes run only on a truthy filter string, and
the price pass always runs since every float is below infinity. -/
def filterStage (P : FilterParams) (rs : List Restaurant) : List Restaurant :=
  let f1 := rs.filter (reviewPred P.min_rating P.min_reviews)
  let f2 := if P.name_filter.isEmpty then f1 else f1.filter (namePred P.name_filter)
  let f3 := if P.deals_filter.isEmpty then f2 else f2.filter (dealsPred P.deals_filter)
  f3.filter (pricePred P.max_price)

/-- The price sort key: the minimum deal price, with float infinity for
unpriced records modelled as the top element. -/
def priceKey (r : Restaurant) : WithTop ℚ :=
  match extract_price_from_deals r with
  | none => ⊤
  | some p => (p : WithTop ℚ)

/-- A stable sort by a key, descending when desc holds: the unique
stable order Python list.sort produces with this key and reverse flag. -/
def sortKeyed {α : Type} [LinearOrder α] (desc : Bool) (key : Restaurant → α)
    (rs : List Restaurant) : List Restaurant :=
  rs.mergeSort (fun a b => if desc then decide (key b ≤ key a) else decide (key a ≤ key b))

/-- The sort dispatch of apply_filters_and_sorting: one of the four
recognised keys, or no sorting at all. -/
def sortStage (P : FilterParams) (rs : List Restaurant) : List Restaurant :=
  if P.sort_by = "Distance" then
    sortKeyed (P.sort_order = "Descending") get_distance_value rs
  else if P.sort_by = "Rating" then
    sortKeyed (P.sort_order = "Descending") ratingOf rs
  else if P.sort_by = "Review Count" then
    sortKeyed (P.sort_order = "Descending") reviewCountOf rs
  else if P.sort_by = "Price" then
    sortKeyed (P.sort_order = "Descending") priceKey rs
  else rs

/-- apply_filters_and_sorting (src/ui/filters.py lines 177 to 260): the
empty-input guard, the filter passes, then the sort. -/
def apply_filters_and_sorting (P : FilterParams) (rs : List Restaurant) : List Restaurant :=
  if rs.isEmpty then [] else sortStage P (filterStage P rs)

/-! ### src/utils/distance_utils.py: calculate_distance

The Haversine code computes with double-precision floats through
math.sin and friends; the embedding reads those operations as the real
functions they approximate. -/

/-- math.radians: degrees times pi over 180. -/
noncomputable def radians (x : ℝ) : ℝ := x * (Real.pi / 180)

/-- calculate_distance (src/utils/distance_utils.py lines 6 to 27): the
Haversine formula with earth radius 6371 kilometres. -/
noncomputable def calculate_distance (lat1 lon1 lat2 lon2 : ℝ) : ℝ :=
  let rlat1 := radians lat1
  let rlon1 := radians lon1
  let rlat2 := radians lat2
  let rlon2 := radians lon2
  let dlon := rlon2 - rlon1
  let dlat := rlat2 - rlat1
  let a := Real.sin (dlat / 2) ^ 2 +
    Real.cos rlat1 * Real.cos rlat2 * Real.sin (dlon / 2) ^ 2
  let c := 2 * Real.arcsin (Real.sqrt a)
  c * 6371

/-! ### Predicates used by the claim statements -/

/-- A record whose distance field the app cannot parse: the key is
missing, the string splits to nothing, or float() fails on the first
token. -/
def distanceUnparseable (r : Restaurant) : Bool :=
  match r.distance with
  | none => true
  | some s =>
    match pySplitWs s.data with
    | [] => true
    | p :: _ => (pyFloatParse p).isNone

/-- The conjunction of everything the four filter passes test, with the
guard of each optional pass folded in. -/
def allPreds (P : FilterParams) (r : Restaurant) : Bool :=
  reviewPred P.min_rating P.min_reviews r
    && (P.name_filter.isEmpty || namePred P.name_filter r)
    && (P.deals_filter.isEmpty || dealsPred P.deals_filter r)
    && pricePred P.max_price r

/-- A concrete geocoding oracle used to instantiate the resolution
chain: every address resolves to (1, 2). -/
def geoW : String → Option (ℚ × ℚ) := fun _ => some (1, 2)

/-- A concrete maps-url oracle used to instantiate the resolution chain:
nothing resolves. -/
def urlW : String → Option (ℚ × ℚ) := fun _ => none

/-! ### Helper lemmas -/

theorem decQ_nonneg (i f : List Char) : 0 ≤ decQ i f := by
  unfold decQ
  have h1 : (0 : ℚ) ≤ (natOfDigits i : ℚ) := by positivity
  have h2 : (0 : ℚ) ≤ (natOfDigits f : ℚ) / (10 : ℚ) ^ f.length := by positivity
  linarith

theorem natQ_nonneg (d : List Char) : 0 ≤ natQ d := by
  unfold natQ
  positivity

theorem altFrac_nonneg {d1 r1 : List Char} {v m : ℚ}
    (h : altFrac d1 r1 = some (v, m)) : 0 ≤ v ∧ 0 ≤ m := by
  simp only [altFrac] at h
  split at h
  case h_1 r2 =>
    split at h
    · exact absurd h (by simp)
    · split at h
      case h_1 r3 =>
        split at h
        · exact absurd h (by simp)
        · obtain ⟨hv, hm⟩ := Prod.mk.inj (Option.some.inj h)
          subst hv
          subst hm
          exact ⟨decQ_nonneg _ _, natQ_nonneg _⟩
      case h_2 => exact absurd h (by simp)
  case h_2 => exact absurd h (by simp)

theorem altInt_nonneg {d1 r1 : List Char} {v m : ℚ}
    (h : altInt d1 r1 = some (v, m)) : 0 ≤ v ∧ 0 ≤ m := by
  simp only [altInt] at h
  split at h
  case h_1 r3 =>
    split at h
    · exact absurd h (by simp)
    · obtain ⟨hv, hm⟩ := Prod.mk.inj (Option.some.inj h)
      subst hv
      subst hm
      exact ⟨natQ_nonneg _, natQ_nonneg _⟩
  case h_2 => exact absurd h (by simp)

theorem matchNumberSlash_nonneg {l : List Char} {v m : ℚ}
    (h : matchNumberSlash l = some (v, m)) : 0 ≤ v ∧ 0 ≤ m := by
  simp only [matchNumberSlash] at h
  split at h
  · exact absurd h (by simp)
  · split at h
    case h_1 vm heq =>
      obtain ⟨v0, m0⟩ := vm
      obtain ⟨hv, hm⟩ := Prod.mk.inj (Option.some.inj h)
      subst hv
      subst hm
      exact altFrac_nonneg heq
    case h_2 => exact altInt_nonneg h

theorem matchPrefixedNumber_nonneg {l : List Char} {v m : ℚ}
    (h : matchPrefixedNumber l = some (v, m)) : 0 ≤ v ∧ 0 ≤ m := by
  simp only [matchPrefixedNumber] at h
  split at h
  · exact matchNumberSlash_nonneg h
  · exact absurd h (by simp)

theorem searchNumberSlash_nonneg {v m : ℚ} :
    ∀ {l : List Char}, searchNumberSlash l = some (v, m) → 0 ≤ v ∧ 0 ≤ m := by
  intro l
  induction l with
  | nil => intro h; exact absurd h (by simp [searchNumberSlash])
  | cons c t ih =>
    intro h
    simp only [searchNumberSlash] at h
    split at h
    case h_1 vm heq =>
      obtain ⟨v0, m0⟩ := vm
      obtain ⟨hv, hm⟩ := Prod.mk.inj (Option.some.inj h)
      subst hv
      subst hm
      exact matchNumberSlash_nonneg heq
    case h_2 => exact ih h

theorem searchPrefixedNumber_nonneg {v m : ℚ} :
    ∀ {l : List Char}, searchPrefixedNumber l = some (v, m) → 0 ≤ v ∧ 0 ≤ m := by
  intro l
  induction l with
  | nil => intro h; exact absurd h (by simp [searchPrefixedNumber])
  | cons c t ih =>
    intro h
    simp only [searchPrefixedNumber] at h
    split at h
    case h_1 vm heq =>
      obtain ⟨v0, m0⟩ := vm
      obtain ⟨hv, hm⟩ := Prod.mk.inj (Option.some.inj h)
      subst hv
      subst hm
      exact matchPrefixedNumber_nonneg heq
    case h_2 => exact ih h

/-- Rescaling keeps a nonnegative fraction value in range when the value
is at most the maximum. -/
theorem rescale_le_five {v m : ℚ} (hv : 0 ≤ v) (hm : 0 ≤ m) (hne : m ≠ 0)
    (hvm : v ≤ m) : v / m * 5 ≤ 5 := by
  have hmpos : 0 < m := lt_of_le_of_ne hm (Ne.symm hne)
  have h1 : v / m ≤ 1 := (div_le_one hmpos).mpr hvm
  nlinarith

/-- Every record the four filter passes keep satisfies the folded
predicate conjunction. -/
theorem of_mem_filterStage {P : FilterParams} {r : Restaurant} {rs : List Restaurant}
    (h : r ∈ filterStage P rs) : allPreds P r = true := by
  simp only [filterStage] at h
  have h4 : pricePred P.max_price r = true := List.of_mem_filter h
  have h3m := List.mem_of_mem_filter h
  unfold allPreds
  cases hd : P.deals_filter.isEmpty with
  | true =>
    simp only [hd, if_true] at h3m
    cases hn : P.name_filter.isEmpty with
    | true =>
      simp only [hn, if_true] at h3m
      have h1 : reviewPred P.min_rating P.min_reviews r = true := List.of_mem_filter h3m
      simp [h1, h4]
    | false =>
      simp only [hn, if_false] at h3m
      have h2 : namePred P.name_filter r = true := List.of_mem_filter h3m
      have h1 : reviewPred P.min_rating P.min_reviews r = true :=
        List.of_mem_filter (List.mem_of_mem_filter h3m)
      simp [h1, h2, h4]
  | false =>
    simp only [hd, if_false] at h3m
    have hdl : dealsPred P.deals_filter r = true := List.of_mem_filter h3m
    have h2m := List.mem_of_mem_filter h3m
    cases hn : P.name_filter.isEmpty with
    | true =>
      simp only [hn, if_true] at h2m
      have h1 : reviewPred P.min_rating P.min_reviews r = true := List.of_mem_filter h2m
      simp [h1, hdl, h4]
    | false =>
      simp only [hn, if_false] at h2m
      have h2 : namePred P.name_filter r = true := List.of_mem_filter h2m
      have h1 : reviewPred P.min_rating P.min_reviews r = true :=
        List.of_mem_filter (List.mem_of_mem_filter h2m)
      simp [h1, h2, hdl, h4]

/-- The filter passes leave a list alone when every element already
satisfies the folded predicate conjunction. -/
theorem filterStage_eq_self {P : FilterParams} {rs : List Restaurant}
    (hall : ∀ x ∈ rs, allPreds P x = true) : filterStage P rs = rs := by
  have hsplit : ∀ x ∈ rs, reviewPred P.min_rating P.min_reviews x = true ∧
      (P.name_filter.isEmpty || namePred P.name_filter x) = true ∧
      (P.deals_filter.isEmpty || dealsPred P.deals_filter x) = true ∧
      pricePred P.max_price x = true := by
    intro x hx
    have h := hall x hx
    unfold allPreds at h
    simp only [Bool.and_eq_true] at h
    exact ⟨h.1.1.1, h.1.1.2, h.1.2, h.2⟩
  simp only [filterStage]
  have h1 : rs.filter (reviewPred P.min_rating P.min_reviews) = rs :=
    List.filter_eq_self.mpr (fun x hx => (hsplit x hx).1)
  rw [h1]
  have h2 : (if P.name_filter.isEmpty then rs else rs.filter (namePred P.name_filter)) = rs := by
    cases hn : P.name_filter.isEmpty with
    | true => simp
    | false =>
      simp only [if_false, Bool.false_eq_true, ite_false]
      refine List.filter_eq_self.mpr (fun x hx => ?_)
      have := (hsplit x hx).2.1
      rw [hn] at this
      simpa using this
  rw [h2]
  have h3 : (if P.deals_filter.isEmpty then rs else rs.filter (dealsPred P.deals_filter)) = rs := by
    cases hd : P.deals_filter.isEmpty with
    | true => simp
    | false =>
      simp only [if_false, Bool.false_eq_true, ite_false]
      refine List.filter_eq_self.mpr (fun x hx => ?_)
      have := (hsplit x hx).2.2.1
      rw [hd] at this
      simpa using this
  rw [h3]
  exact List.filter_eq_self.mpr (fun x hx => (hsplit x hx).2.2.2)

/-- A keyed stable sort permutes its input. -/
theorem sortKeyed_perm {α : Type} [LinearOrder α] (d : Bool) (k : Restaurant → α)
    (rs : List Restaurant) : (sortKeyed d k rs).Perm rs :=
  List.mergeSort_perm rs _

/-- A keyed stable sort is idempotent: its comparison is transitive and
total, so the sorted output is pairwise ordered and sorting it again
changes nothing. -/
theorem sortKeyed_idem {α : Type} [LinearOrder α] (d : Bool) (k : Restaurant → α)
    (rs : List Restaurant) : sortKeyed d k (sortKeyed d k rs) = sortKeyed d k rs := by
  unfold sortKeyed
  apply List.mergeSort_of_sorted
  apply List.sorted_mergeSort
  · intro a b c hab hbc
    cases d with
    | true =>
      simp at hab hbc
      simpa using le_trans hbc hab
    | false =>
      simp at hab hbc
      simpa using le_trans hab hbc
  · intro a b
    cases d with
    | true => simpa using le_total (k b) (k a)
    | false => simpa using le_total (k a) (k b)

/-- The sort dispatch permutes its input on every branch. -/
theorem sortStage_perm (P : FilterParams) (rs : List Restaurant) :
    (sortStage P rs).Perm rs := by
  unfold sortStage
  split_ifs <;> first | exact sortKeyed_perm _ _ _ | exact List.Perm.refl _

/-- The sort dispatch is idempotent on every branch. -/
theorem sortStage_idem (P : FilterParams) (rs : List Restaurant) :
    sortStage P (sortStage P rs) = sortStage P rs := by
  unfold sortStage
  split_ifs <;> first | exact sortKeyed_idem _ _ _ | rfl

/-! ### Claim theorems -/

/-- C1: on the deal text Buy 1 Get 1 dollar-10 off arrow dollar-0.95
each wings, the price extractor does NOT return the claimed list of
10.0 alone: the regex backtracks after the lookahead rejects the full
capture 0.95, accepts the shorter capture 0.9 whose lookahead sees the
digit 5 rather than the word each, and the code returns the two prices
10 and 0.9 in violation of its own comment on the pattern. -/
theorem c1_price_extractor_on_each_text :
    extract_all_prices_from_deals
      { summarized_deals := some "Buy 1 Get 1 $10 off -> $0.95 each wings" } =
      [10, 9 / 10] := by
  with_unfolding_all decide

/-- C2 counterexample: on the legacy review string 9/5 (10 reviews) the
parser returns rating 9, strictly above 5, so the claimed invariant that
the rating lies in the interval 0 to 5 regardless of the numeric values
in the string is false. -/
theorem c2_rating_above_five :
    5 < (parse_reviews "9/5 (10 reviews)").1 := by
  with_unfolding_all decide

/-- C2 (amended): the parsed rating is always nonnegative, and it is at
most 5 whenever the extracted fraction has value at most max, the 0 case
of a missing or empty match included; only a fraction whose value
exceeds its max (such as 9/5 or 12/10) can push the rating above 5. -/
theorem c2_rating_nonneg_and_conditionally_bounded :
    ∀ s : String, 0 ≤ (parse_reviews s).1 ∧
      (∀ v m : ℚ, ratingFracOf s = some (v, m) → v ≤ m → (parse_reviews s).1 ≤ 5) ∧
      (ratingFracOf s = none → (parse_reviews s).1 = 0) := by
  intro s
  by_cases hemp : s.data.isEmpty = true
  · have hp : parse_reviews s = (0, 0) := by
      unfold parse_reviews
      simp only [parse_reviewsE]
      rw [if_pos hemp]
    have hf : ratingFracOf s = none := by
      unfold ratingFracOf
      rw [if_pos hemp]
    rw [hp, hf]
    exact ⟨le_refl 0, fun v m hvm => absurd hvm (by simp), fun _ => rfl⟩
  · by_cases hnew : isNewFormat s.data = true
    · have hfrac : ratingFracOf s = searchPrefixedNumber s.data := by
        unfold ratingFracOf
        rw [if_neg hemp, if_pos hnew]
      cases hc : newCountE s.data with
      | error e =>
        have hE : parse_reviewsE s = Except.error e := by
          simp only [parse_reviewsE]
          rw [if_neg hemp, if_pos hnew, hc]
        have hp : parse_reviews s = (0, 0) := by simp [parse_reviews, hE]
        rw [hp, hfrac]
        exact ⟨le_refl 0, fun v m _ _ => by norm_num, fun _ => rfl⟩
      | ok c =>
        cases hs : searchPrefixedNumber s.data with
        | none =>
          have hE : parse_reviewsE s = Except.ok (0, c) := by
            simp only [parse_reviewsE]
            rw [if_neg hemp, if_pos hnew, hc, hs]
            rfl
          have hp : parse_reviews s = (0, c) := by simp [parse_reviews, hE]
          rw [hp, hfrac, hs]
          exact ⟨le_refl 0, fun v m hvm => absurd hvm (by simp), fun _ => rfl⟩
        | some vm =>
          obtain ⟨v0, m0⟩ := vm
          have hnn := searchPrefixedNumber_nonneg hs
          by_cases hm5 : m0 = 5
          · have hE : parse_reviewsE s = Except.ok (v0, c) := by
              simp only [parse_reviewsE]
              rw [if_neg hemp, if_pos hnew, hc, hs]
              simp [ratingFromFracE, hm5]
            have hp : parse_reviews s = (v0, c) := by simp [parse_reviews, hE]
            rw [hp, hfrac, hs]
            refine ⟨hnn.1, ?_, fun hno => absurd hno (by simp)⟩
            intro v m hvm hle
            obtain ⟨hv, hm⟩ := Prod.mk.inj (Option.some.inj hvm)
            subst hv
            subst hm
            rw [hm5] at hle
            exact hle
          · by_cases hm0 : m0 = 0
            · have hE : parse_reviewsE s = Except.error () := by
                simp only [parse_reviewsE]
                rw [if_neg hemp, if_pos hnew, hc, hs]
                simp [ratingFromFracE, hm5, hm0]
              have hp : parse_reviews s = (0, 0) := by simp [parse_reviews, hE]
              rw [hp, hfrac]
              exact ⟨le_refl 0, fun v m _ _ => by norm_num, fun _ => rfl⟩
            · have hE : parse_reviewsE s = Except.ok (v0 / m0 * 5, c) := by
                simp only [parse_reviewsE]
                rw [if_neg hemp, if_pos hnew, hc, hs]
                simp [ratingFromFracE, hm5, hm0]
              have hp : parse_reviews s = (v0 / m0 * 5, c) := by simp [parse_reviews, hE]
              rw [hp, hfrac, hs]
              refine ⟨mul_nonneg (div_nonneg hnn.1 hnn.2) (by norm_num), ?_,
                fun hno => absurd hno (by simp)⟩
              intro v m hvm hle
              obtain ⟨hv, hm⟩ := Prod.mk.inj (Option.some.inj hvm)
              subst hv
              subst hm
              exact rescale_le_five hnn.1 hnn.2 hm0 hle
    · have hfrac : ratingFracOf s = searchNumberSlash s.data := by
        unfold ratingFracOf
        rw [if_neg hemp, if_neg hnew]
      cases hs : searchNumberSlash s.data with
      | none =>
        have hE : parse_reviewsE s = Except.ok (0, oldCount s.data) := by
          simp only [parse_reviewsE]
          rw [if_neg hemp, if_neg hnew, hs]
          rfl
        have hp : parse_reviews s = (0, oldCount s.data) := by simp [parse_reviews, hE]
        rw [hp, hfrac, hs]
        exact ⟨le_refl 0, fun v m hvm => absurd hvm (by simp), fun _ => rfl⟩
      | some vm =>
        obtain ⟨v0, m0⟩ := vm
        have hnn := searchNumberSlash_nonneg hs
        by_cases hm5 : m0 = 5
        · have hE : parse_reviewsE s = Except.ok (v0, oldCount s.data) := by
            simp only [parse_reviewsE]
            rw [if_neg hemp, if_neg hnew, hs]
            simp [ratingFromFracE, hm5]
          have hp : parse_reviews s = (v0, oldCount s.data) := by simp [parse_reviews, hE]
          rw [hp, hfrac, hs]
          refine ⟨hnn.1, ?_, fun hno => absurd hno (by simp)⟩
          intro v m hvm hle
          obtain ⟨hv, hm⟩ := Prod.mk.inj (Option.some.inj hvm)
          subst hv
          subst hm
          rw [hm5] at hle
          exact hle
        · by_cases hm0 : m0 = 0
          · have hE : parse_reviewsE s = Except.error () := by
              simp only [parse_reviewsE]
              rw [if_neg hemp, if_neg hnew, hs]
              simp [ratingFromFracE, hm5, hm0]
            have hp : parse_reviews s = (0, 0) := by simp [parse_reviews, hE]
            rw [hp, hfrac]
            exact ⟨le_refl 0, fun v m _ _ => by norm_num, fun _ => rfl⟩
          · have hE : parse_reviewsE s = Except.ok (v0 / m0 * 5, oldCount s.data) := by
              simp only [parse_reviewsE]
              rw [if_neg hemp, if_neg hnew, hs]
              simp [ratingFromFracE, hm5, hm0]
            have hp : parse_reviews s = (v0 / m0 * 5, oldCount s.data) := by
              simp [parse_reviews, hE]
            rw [hp, hfrac, hs]
            refine ⟨mul_nonneg (div_nonneg hnn.1 hnn.2) (by norm_num), ?_,
              fun hno => absurd hno (by simp)⟩
            intro v m hvm hle
            obtain ⟨hv, hm⟩ := Prod.mk.inj (Option.some.inj hvm)
            subst hv
            subst hm
            exact rescale_le_five hnn.1 hnn.2 hm0 hle

/-- C2 witness: the amended bound applied at the concrete new-format
string with fraction 8.6/10, whose value is below its max, and at the
empty string. -/
theorem c2_rating_nonneg_and_conditionally_bounded_witness :
    (0 ≤ (parse_reviews "Total Reviews: 3\nAverage Rating: 8.6/10").1 ∧
      (parse_reviews "Total Reviews: 3\nAverage Rating: 8.6/10").1 ≤ 5) ∧
      (parse_reviews "").1 = 0 :=
  ⟨⟨(c2_rating_nonneg_and_conditionally_bounded
        "Total Reviews: 3\nAverage Rating: 8.6/10").1,
    (c2_rating_nonneg_and_conditionally_bounded
        "Total Reviews: 3\nAverage Rating: 8.6/10").2.1 (43 / 5) 10
      (by with_unfolding_all decide) (by norm_num)⟩,
    (c2_rating_nonneg_and_conditionally_bounded "").2.2 (by with_unfolding_all decide)⟩

/-- C3 counterexample: the app.py distance-cap filter raises rather
than defaulting on a record whose distance is the stored token Unknown,
and likewise on a record with no distance field at all, so the claim
that such records are never excluded with no error raised is false for
the distance-cap filter the application actually runs. -/
theorem c3_app_distance_filter_raises :
    appDistanceFilter [{ distance := some "Unknown" }] 5 = Except.error () ∧
    appDistanceFilter [{ distance := none }] 5 = Except.error () := by
  constructor
  · with_unfolding_all rfl
  · with_unfolding_all rfl

/-- C3 (amended): the safe accessor get_distance_value returns 0 for a
record whose distance is missing or unparseable, and 0 is at most any
nonnegative cap, so a distance cap built on get_distance_value never
excludes such a record and no error escapes; the app.py filter, by
contrast, parses with float() directly and raises (see the
counterexample). -/
theorem c3_unparseable_distance_defaults :
    ∀ (r : Restaurant) (cap : ℚ), distanceUnparseable r = true → 0 ≤ cap →
      get_distance_value r = 0 ∧ get_distance_value r ≤ cap := by
  intro r cap hu hc
  have h0 : get_distance_value r = 0 := by
    unfold distanceUnparseable at hu
    unfold get_distance_value
    cases hd : r.distance with
    | none => rfl
    | some s =>
      simp only [hd] at hu ⊢
      cases hsp : pySplitWs s.data with
      | nil => simp [hsp]
      | cons p t =>
        simp only [hsp] at hu ⊢
        cases hpf : pyFloatParse p with
        | none => simp [hpf]
        | some q =>
          rw [hpf] at hu
          simp at hu
  exact ⟨h0, h0 ▸ hc⟩

/-- C3 witness: the amended default applied at a record storing the
token Unknown, against the cap 3. -/
theorem c3_unparseable_distance_defaults_witness :
    distanceUnparseable { distance := some "Unknown" } = true ∧
      get_distance_value { distance := some "Unknown" } = 0 ∧
      get_distance_value { distance := some "Unknown" } ≤ 3 :=
  ⟨by with_unfolding_all decide,
    (c3_unparseable_distance_defaults { distance := some "Unknown" } 3
      (by with_unfolding_all decide) (by norm_num)).1,
    (c3_unparseable_distance_defaults { distance := some "Unknown" } 3
      (by with_unfolding_all decide) (by norm_num)).2⟩

/-- C4: coordinate resolution tries geocoding, then the maps url, then
the named-area table, then the fixed downtown Winnipeg pair, and the
first strategy to return a pair supplies the result with all later
strategies unconsulted; the result type being a plain pair, every record
leaves the chain with latitude and longitude set. -/
theorem c4_resolution_priority :
    ∀ (g e : String → Option (ℚ × ℚ)) (r : RawRecord),
      (∀ p, geocodeAttempt g r = some p → process_restaurant_coords g e r = p) ∧
      (geocodeAttempt g r = none →
        ∀ p, mapsUrlAttempt e r = some p → process_restaurant_coords g e r = p) ∧
      (geocodeAttempt g r = none → mapsUrlAttempt e r = none →
        ∀ a, r.area = some a →
          process_restaurant_coords g e r = get_winnipeg_coordinates_by_area a) ∧
      (geocodeAttempt g r = none → mapsUrlAttempt e r = none → r.area = none →
        process_restaurant_coords g e r = (49.8951, -97.1384)) := by
  intro g e r
  refine ⟨?_, ?_, ?_, ?_⟩
  · intro p hp
    unfold process_restaurant_coords
    rw [hp]
  · intro h1 p hp
    unfold process_restaurant_coords
    rw [h1, hp]
  · intro h1 h2 a ha
    unfold process_restaurant_coords
    rw [h1, h2]
    unfold areaAttempt
    rw [ha]
    rfl
  · intro h1 h2 h3
    unfold process_restaurant_coords
    rw [h1, h2]
    unfold areaAttempt
    rw [h3]
    rfl

/-- C4 witness: with a geocoding oracle resolving every address to
(1, 2), a record carrying an address resolves to (1, 2) through the
first strategy. -/
theorem c4_resolution_priority_witness :
    process_restaurant_coords geoW urlW { address := some "addr" } = (1, 2) :=
  (c4_resolution_priority geoW urlW { address := some "addr" }).1 (1, 2)
    (by with_unfolding_all decide)

/-- C5: the filter and sort pipeline is idempotent; a second application
with the same parameters filters a list whose members already pass every
filter and sorts a list already in the stable order of the chosen key,
so it returns its input unchanged.  The embedding is a pure function of
the record list, matching the source, whose comprehensions build fresh
lists and never write to the records. -/
theorem c5_filter_sort_idempotent :
    ∀ (P : FilterParams) (rs : List Restaurant),
      apply_filters_and_sorting P (apply_filters_and_sorting P rs) =
        apply_filters_and_sorting P rs := by
  intro P rs
  by_cases hrs : rs.isEmpty = true
  · have h1 : apply_filters_and_sorting P rs = [] := by
      unfold apply_filters_and_sorting
      rw [if_pos hrs]
    rw [h1]
    simp [apply_filters_and_sorting]
  · have h1 : apply_filters_and_sorting P rs = sortStage P (filterStage P rs) := by
      unfold apply_filters_and_sorting
      rw [if_neg hrs]
    rw [h1]
    by_cases hout : (sortStage P (filterStage P rs)).isEmpty = true
    · have h2 : sortStage P (filterStage P rs) = [] := List.isEmpty_iff.mp hout
      rw [h2]
      simp [apply_filters_and_sorting]
    · unfold apply_filters_and_sorting
      rw [if_neg hout]
      have hall : ∀ x ∈ sortStage P (filterStage P rs), allPreds P x = true := by
        intro x hx
        exact of_mem_filterStage ((sortStage_perm P (filterStage P rs)).mem_iff.mp hx)
      rw [filterStage_eq_self hall]
      exact sortStage_idem P (filterStage P rs)

/-- C6: when the two deal lists the display code builds have different
lengths, both are truncated to the shorter length before zipping, so the
pairing is positional on the truncated lists and exactly the minimum of
the two lengths many pairs are produced. -/
theorem c6_mismatch_truncates_to_min :
    ∀ sd dd : String, (splitArrow sd).length ≠ (splitArrow dd).length →
      detailedDealPairs sd dd =
        ((splitArrow sd).take (min (splitArrow sd).length (splitArrow dd).length)).zip
          ((splitArrow dd).take (min (splitArrow sd).length (splitArrow dd).length)) ∧
      (detailedDealPairs sd dd).length =
        min (splitArrow sd).length (splitArrow dd).length := by
  intro sd dd h
  constructor
  · simp [detailedDealPairs, h]
  · simp only [detailedDealPairs]
    rw [if_pos h]
    simp only [List.length_zip, List.length_take]
    omega

/-- C6 witness: a two-summary, three-detail record pairs exactly two
deals. -/
theorem c6_mismatch_truncates_to_min_witness :
    (splitArrow "A -> B").length ≠ (splitArrow "X -> Y -> Z").length ∧
    (detailedDealPairs "A -> B" "X -> Y -> Z").length =
      min (splitArrow "A -> B").length (splitArrow "X -> Y -> Z").length :=
  ⟨by with_unfolding_all decide,
    (c6_mismatch_truncates_to_min "A -> B" "X -> Y -> Z"
      (by with_unfolding_all decide)).2⟩

/-- C7: on the new-format review string with count 2,804 and rating
8.6/10 the parser returns the comma-stripped count 2804 and the rating
8.6 over 10 rescaled to the 5-point scale, exactly 43/10. -/
theorem c7_new_format_roundtrip :
    parse_reviews "Total Reviews: 2,804\nAverage Rating: 8.6/10" = (43 / 10, 2804) := by
  with_unfolding_all decide

/-- C8: the review parser is total and never propagates an error: on
every input the caller receives either the try-block value or, whenever
the body raises, exactly the default pair (0, 0); the empty string, a
string with no markers, a comma-only count whose int() raises, and a
zero maximum whose division raises all land on the default. -/
theorem c8_parser_total_default :
    (∀ s : String, parse_reviews s = (0, 0) ∨ parse_reviewsE s = Except.ok (parse_reviews s)) ∧
    parse_reviews "" = (0, 0) ∧
    parse_reviews "no rating markers at all" = (0, 0) ∧
    parse_reviews "Total Reviews: ,\nAverage Rating: 8.6/10" = (0, 0) ∧
    parse_reviews "Total Reviews: 7\nAverage Rating: 3/0" = (0, 0) := by
  refine ⟨fun s => ?_, ?_, ?_, ?_, ?_⟩
  · cases h : parse_reviewsE s with
    | ok v => right; simp [parse_reviews, h]
    | error e => left; simp [parse_reviews, h]
  · with_unfolding_all decide
  · with_unfolding_all decide
  · with_unfolding_all decide
  · with_unfolding_all decide

/-- C9: over the real numbers the Haversine distance of a point to
itself is zero, and the distance is symmetric in its two points. -/
theorem c9_haversine_self_and_symm :
    (∀ lat lon : ℝ, calculate_distance lat lon lat lon = 0) ∧
    (∀ la1 lo1 la2 lo2 : ℝ,
      calculate_distance la1 lo1 la2 lo2 = calculate_distance la2 lo2 la1 lo1) := by
  have key : ∀ x y : ℝ, Real.sin ((x - y) / 2) ^ 2 = Real.sin ((y - x) / 2) ^ 2 := by
    intro x y
    rw [show (x - y) / 2 = -((y - x) / 2) by ring, Real.sin_neg, neg_sq]
  constructor
  · intro lat lon
    simp [calculate_distance]
  · intro la1 lo1 la2 lo2
    simp only [calculate_distance]
    rw [key (radians la2) (radians la1), key (radians lo2) (radians lo1),
      mul_comm (Real.cos (radians la1)) (Real.cos (radians la2))]

/-- C10: the display code discards whitespace-only segments from each
deal list independently before truncation: the summary string with an
empty middle segment splits, under the spec delimiter, into three raw
segments, of which the display keeps two, so against three details the
pairing shifts and the detail of the second deal is paired with the
summary of the third. -/
theorem c10_whitespace_segments_shift_pairing :
    splitOnSub " -> ".data "A ->  -> C".data = ["A".data, [], "C".data] ∧
    splitArrow "A ->  -> C" = ["A", "C"] ∧
    splitArrow "dA -> dB -> dC" = ["dA", "dB", "dC"] ∧
    detailedDealPairs "A ->  -> C" "dA -> dB -> dC" = [("A", "dA"), ("C", "dB")] := by
  refine ⟨?_, ?_, ?_, ?_⟩
  · with_unfolding_all decide
  · with_unfolding_all decide
  · with_unfolding_all decide
  · with_unfolding_all decide

end Pronto
